import Mathlib

/-
  A verification development for the GW2 trading-post alert tool
  (src/gw2_tp_alerts.py), as a shallow embedding in Lean.

  Conventions of the embedding:
  - machine integers are Nat (every value written by the program here is
    non-negative: prices come from the API order books, thresholds from the
    price parser, timestamps from the clock);
  - the SQLite `items` table is a list of rows, SQL UPDATE maps over the
    rows matching the WHERE clause, DELETE filters them out, and
    `cursor.rowcount` is the number of matching rows;
  - a Python function that raises is embedded as a function returning an
    Option or a pair carrying an error marker, leaving the store argument
    as the unchanged state;
  - character classes are modelled over ASCII, matching every input the
    tool documents ( \d as the ten ASCII digits, lowercasing and
    whitespace as their ASCII meaning).
-/

namespace GW2TP

/-! ## Configuration constants (src lines 19-20) -/

def CHECK_INTERVAL : Nat := 300
def RATE_LIMIT_RETRY : Nat := 1200

/-- Sentinel value of the `lowest_seen` column (schema default and the
value written by `itemThreshold`, src lines 66 and 181-188). -/
def LOWEST_SENTINEL : Nat := 999999999

/-! ## Price formatting (src lines 394-399) -/

/-- Python `f"{n:02d}"`: decimal rendering left-padded with zeros to
width two. -/
def pad2 (n : Nat) : String :=
  if n < 10 then "0" ++ toString n else toString n

/-- `format_price` (src lines 394-399): copper value to `<g>g<s>s<c>c`,
gold unpadded, silver and copper padded to two digits. -/
def format_price (copper : Nat) : String :=
  let gold := copper / 10000
  let silver := copper % 10000 / 100
  let cop := copper % 100
  toString gold ++ "g" ++ pad2 silver ++ "s" ++ pad2 cop ++ "c"

/-! ## Price parsing (src lines 401-420)

`parse_price_input` strips and lowercases its input, validates it against
the anchored pattern `(\d+g)?(\d+s)?(\d+c)?`, and on success sums the
three optional groups as gold*10000 + silver*100 + copper.  The matcher
below walks the unit letters 'g' , 's' , 'c' in order; each unit may be
preceded by one non-empty run of digits (one optional group), or be
skipped entirely.  A `none` result embeds the ValueError
(InvalidPriceFormat) raised by the source. -/

/-- ASCII whitespace, the characters removed by Python `str.strip()` on
the inputs this tool sees. -/
def isSpaceChar (c : Char) : Bool :=
  c = ' ' || c = '\t' || c = '\n' || c = '\r' ||
  c = Char.ofNat 11 || c = Char.ofNat 12

def stripChars (cs : List Char) : List Char :=
  ((cs.dropWhile isSpaceChar).reverse.dropWhile isSpaceChar).reverse

def lowerChars (cs : List Char) : List Char := cs.map Char.toLower

/-- Numeric value of a run of decimal digits, as Python `int` reads it. -/
def digitsVal (ds : List Char) : Nat :=
  ds.foldl (fun a c => a * 10 + (c.toNat - 48)) 0

/-- The unit letters of the price pattern with their copper multipliers,
in the order the regex lists the groups. -/
def PRICE_UNITS : List (Char × Nat) := [('g', 10000), ('s', 100), ('c', 1)]

/-- Anchored matcher for the ordered optional groups `(\d+u)?` over the
given unit list, returning the summed copper value on a match.  At each
step it reads the maximal run of digits; the following character must be
one of the remaining units (each group needs at least one digit, and the
groups appear in order, each at most once). -/
def matchUnits : List (Char × Nat) → List Char → Option Nat
  | _, [] => some 0
  | [], _ :: _ => none
  | (u, m) :: units, c :: cs =>
    let ds := (c :: cs).takeWhile Char.isDigit
    match (c :: cs).dropWhile Char.isDigit with
    | [] => none
    | w :: rest =>
      if ds = [] then none
      else if w = u then
        (matchUnits units rest).map (fun v => digitsVal ds * m + v)
      else matchUnits units (c :: cs)

/-- `parse_price_input` (src lines 401-420): strip, lowercase, validate
against `(\d+g)?(\d+s)?(\d+c)?`, and sum the groups; `none` is the
raised InvalidPriceFormat ValueError. -/
def parse_price_input (s : String) : Option Nat :=
  matchUnits PRICE_UNITS (lowerChars (stripChars s.data))

/-! ## The store (class DB, src lines 33-190)

One row of the `items` table and the single `state` row.  The `items`
table has `id` as primary key; SQL statements with `WHERE id = ?` touch
every matching row and `cursor.rowcount` counts them. -/

structure Item where
  id : Nat
  name : String
  buy_threshold : Nat
  sell_threshold : Nat
  lowest_seen : Nat
  last_buy_price : Nat
  last_sell_price : Nat
  icon_url : String
deriving DecidableEq, Repr

structure Store where
  items : List Item
  last_run : Nat
  limit_until : Nat
deriving DecidableEq, Repr

/-- The `id` primary-key constraint of the `items` table: ids are
pairwise distinct. -/
def wfStore (st : Store) : Prop := (st.items.map Item.id).Nodup

instance (st : Store) : Decidable (wfStore st) := by
  unfold wfStore; infer_instance

/-- `DB.items()` (src lines 138-141) returns the rows keyed by id; the
lookup of one id in that dictionary. -/
def db_items (st : Store) (id : Nat) : Option Item :=
  st.items.find? (fun it => it.id == id)

/-- SQL `UPDATE items SET ... WHERE id = ?`: apply the row change to
every matching row. -/
def updateWhere (l : List Item) (id : Nat) (f : Item → Item) : List Item :=
  l.map (fun x => if x.id == id then f x else x)

/-- `cursor.rowcount` of a statement with `WHERE id = ?`. -/
def rowcount (l : List Item) (id : Nat) : Nat :=
  (l.filter (fun x => x.id == id)).length

/-- `DB.update_prices` (src lines 143-158): overwrite the last-seen
prices of the matching row, also `lowest_seen` when the optional
argument is given; returns `rowcount == 1`. -/
def db_update_prices (st : Store) (itemId buy_price sell_price : Nat)
    (lowest_seen : Option Nat) : Store × Bool :=
  let f : Item → Item := fun it =>
    match lowest_seen with
    | some lo => { it with last_buy_price := buy_price,
                           last_sell_price := sell_price, lowest_seen := lo }
    | none => { it with last_buy_price := buy_price,
                        last_sell_price := sell_price }
  ({ st with items := updateWhere st.items itemId f },
   rowcount st.items itemId == 1)

def dupItemErr : String := "DuplicateItem"

/-- The row `DB.itemAdd` inserts: the given fields, both last prices
0, and `lowest_seen` at its schema default. -/
def newItemRow (id : Nat) (name icon_url : String)
    (buy_threshold sell_threshold : Nat) : Item :=
  { id := id, name := name, buy_threshold := buy_threshold,
    sell_threshold := sell_threshold, lowest_seen := LOWEST_SENTINEL,
    last_buy_price := 0, last_sell_price := 0, icon_url := icon_url }

/-- `DB.itemAdd` (src lines 160-170): raise DuplicateItem when a row
with the same id or name exists (store untouched), else insert the row
with both last prices 0 and `lowest_seen` at its schema default. -/
def db_itemAdd (st : Store) (id : Nat) (name icon_url : String)
    (buy_threshold sell_threshold : Nat) : Store × Option String :=
  if st.items.any (fun it => it.id == id || it.name == name) then
    (st, some dupItemErr)
  else
    ({ st with items := st.items ++
        [newItemRow id name icon_url buy_threshold sell_threshold] },
     none)

/-- `DB.itemDel` (src lines 172-176): DELETE the matching rows and
return `rowcount == 1`. -/
def db_itemDel (st : Store) (id : Nat) : Store × Bool :=
  ({ st with items := st.items.filter (fun it => !(it.id == id)) },
   rowcount st.items id == 1)

/-- `DB.itemThreshold` (src lines 178-190): update whichever thresholds
are provided and reset `lowest_seen` to the sentinel on the matching
row; with neither provided no statement runs and the rowcount test is
false.  Returns `rowcount == 1`. -/
def db_itemThreshold (st : Store) (id : Nat)
    (buy_threshold sell_threshold : Option Nat) : Store × Bool :=
  let apply : (Item → Item) → Store × Bool := fun f =>
    ({ st with items := updateWhere st.items id f },
     rowcount st.items id == 1)
  match buy_threshold, sell_threshold with
  | some b, some s =>
    apply (fun it => { it with buy_threshold := b, sell_threshold := s,
                               lowest_seen := LOWEST_SENTINEL })
  | some b, none =>
    apply (fun it => { it with buy_threshold := b,
                               lowest_seen := LOWEST_SENTINEL })
  | none, some s =>
    apply (fun it => { it with sell_threshold := s,
                               lowest_seen := LOWEST_SENTINEL })
  | none, none => (st, false)

/-! ## The market client (class GW2API, src lines 192-248) -/

structure Order where
  unit_price : Nat
  quantity : Nat
deriving DecidableEq, Repr

structure Listing where
  buy : Order
  sell : Order
deriving DecidableEq, Repr

/-- `GW2API.listings` per item (src lines 210-227): the first order of
each side, and `{unit_price 0, quantity 0}` for a side with no
orders. -/
def listingOfRaw (buys sells : List Order) : Listing :=
  { buy := buys.headD { unit_price := 0, quantity := 0 },
    sell := sells.headD { unit_price := 0, quantity := 0 } }

/-- The transport-level outcome of one HTTP round trip, as the embedding
input: a decoded body, or an HTTP error status. -/
inductive ApiResult (α : Type) where
  | success (data : α)
  | httpError (code : Nat)

/-- What `GW2API.__fetch` hands its caller: the body, the raised
RateLimitHitException, or the re-raised other HTTPError. -/
inductive FetchOutcome (α : Type) where
  | ok (data : α)
  | rateLimited
  | failed (code : Nat)
deriving DecidableEq, Repr

/-- `GW2API.__fetch` (src lines 229-248): on success reset
`limit_until` to 0 and return the body; on HTTP 429 write
`limit_until := now + RATE_LIMIT_RETRY` and raise
RateLimitHitException; re-raise any other HTTPError untouched. -/
def api_fetch {α : Type} (resp : ApiResult α) (now : Nat) (st : Store) :
    Store × FetchOutcome α :=
  match resp with
  | .success d => ({ st with limit_until := 0 }, .ok d)
  | .httpError code =>
    if code == 429 then
      ({ st with limit_until := now + RATE_LIMIT_RETRY }, .rateLimited)
    else (st, .failed code)

/-! ## Threshold evaluation and one poll cycle (monitor_mode, src
lines 470-553) -/

/-- One entry of `alert_items`; `trigger` is the source literal, "buy"
for a SELL opportunity (buy price above threshold) and "sell" for a BUY
opportunity (sell price below threshold). -/
structure Alert where
  name : String
  price : Nat
  quantity : Nat
  threshold : Nat
  icon : String
  trigger : String
deriving DecidableEq, Repr

def buyTrigger : String := "buy"
def sellTrigger : String := "sell"

/-- The alerts one item contributes in a cycle (loop body, src
lines 510-540): a "buy"-trigger alert when the current buy price is
strictly above `buy_threshold`, then a "sell"-trigger alert when the
current sell price is strictly below `sell_threshold`. -/
def itemAlerts (props : Item) (listing : Listing) : List Alert :=
  (if props.buy_threshold < listing.buy.unit_price then
    [{ name := props.name, price := listing.buy.unit_price,
       quantity := listing.buy.quantity, threshold := props.buy_threshold,
       icon := props.icon_url, trigger := buyTrigger }]
   else []) ++
  (if listing.sell.unit_price < props.sell_threshold then
    [{ name := props.name, price := listing.sell.unit_price,
       quantity := listing.sell.quantity, threshold := props.sell_threshold,
       icon := props.icon_url, trigger := sellTrigger }]
   else [])

/-- How one iteration of the monitor loop ended. -/
inductive CycleOutcome where
  | cooldownWait
  | noItems
  | rateLimited
  | fetchFailed (code : Nat)
  | completed (alerts : List Alert)
deriving DecidableEq, Repr

structure CycleResult where
  store : Store
  outcome : CycleOutcome
  notifierCalled : Bool
deriving Repr

/-- One iteration of the `while True` body of `monitor_mode` (src
lines 480-546).  `raw` is the decoded listings body, one pair of order
books per id; `hasDiscord` is whether a webhook is configured.  The
cooldown check, the empty-store check and the fetch error handling come
before any evaluation; on a successful fetch every item first has its
prices recorded and then contributes its alerts, and Discord is called
exactly when the alert list is non-empty and a webhook exists. -/
def monitorCycle (st : Store) (now : Nat)
    (resp : ApiResult (Nat → List Order × List Order))
    (hasDiscord : Bool) : CycleResult :=
  if now < st.limit_until then
    { store := st, outcome := .cooldownWait, notifierCalled := false }
  else if st.items.isEmpty then
    { store := st, outcome := .noItems, notifierCalled := false }
  else
    match api_fetch resp now st with
    | (st1, .rateLimited) =>
      { store := st1, outcome := .rateLimited, notifierCalled := false }
    | (st1, .failed code) =>
      { store := st1, outcome := .fetchFailed code, notifierCalled := false }
    | (st1, .ok raw) =>
      let prices : Nat → Listing := fun id => listingOfRaw (raw id).1 (raw id).2
      let step : Store × List Alert → Item → Store × List Alert :=
        fun acc props =>
          ((db_update_prices acc.1 props.id (prices props.id).buy.unit_price
              (prices props.id).sell.unit_price none).1,
           acc.2 ++ itemAlerts props (prices props.id))
      let fin := st.items.foldl step (st1, [])
      { store := fin.1, outcome := .completed fin.2,
        notifierCalled := !fin.2.isEmpty && hasDiscord }

/-! ## The threshold CLI action (actionThreshold, src lines 607-622)

`actionThreshold` parses the provided threshold strings before touching
the store; a falsy argument (absent or empty) stands for "not provided",
and a ValueError from the parser is caught and reported with no store
call.  Only the resulting store matters here. -/

/-- The value of `parse_price_input(arg) if arg else None`; the outer
`none` is the raised InvalidPriceFormat ValueError. -/
def parseThresholdArg : Option String → Option (Option Nat)
  | none => some none
  | some s => if s = "" then some none else (parse_price_input s).map some

def actionThreshold (st : Store) (id : Nat)
    (buyStr sellStr : Option String) : Store :=
  match parseThresholdArg buyStr, parseThresholdArg sellStr with
  | some b, some s => (db_itemThreshold st id b s).1
  | _, _ => st

/-! ## Spec-side definitions

These follow the words of the specification, to be compared with the
definitions above taken from the source. -/

/-- Following the spec: the strict structure `(\d+g)?(\d+s)?(\d+c)?`,
group by group: for each unit in order, either the group is absent, or
the text starts with a non-empty digit run followed by that unit
letter. -/
def unitsPattern : List (Char × Nat) → List Char → Prop
  | [], cs => cs = []
  | (u, _) :: units, cs =>
    unitsPattern units cs ∨
    ∃ ds rest, ds ≠ [] ∧ (∀ c ∈ ds, c.isDigit = true) ∧
      cs = ds ++ u :: rest ∧ unitsPattern units rest

/-- Following the spec: a price text is valid when it matches
`(\d+g)?(\d+s)?(\d+c)?`. -/
def pricePattern (cs : List Char) : Prop := unitsPattern PRICE_UNITS cs

/-- Following the spec: zero-padding to two digits. -/
def spec_pad2 (n : Nat) : String :=
  if n < 10 then "0" ++ toString n else toString n

/-- Following the spec: the normalized rendering of a copper value,
gold unpadded, silver and copper zero-padded to two digits, with
1 gold = 100 silver = 10000 copper. -/
def spec_render (v : Nat) : String :=
  toString (v / 10000) ++ "g" ++ spec_pad2 (v / 100 % 100) ++ "s" ++
  spec_pad2 (v % 100) ++ "c"

/-- Following the spec: the normalized rendering of a valid price text,
the rendering of its parsed value. -/
def normalize_price (x : String) : Option String :=
  (parse_price_input x).map spec_render

/-! ## Concrete fixtures used by the claims -/

def exPriceStr : String := "1g23s45c"
def exPriceOut : String := "1g23s45c"
def emptyStr : String := ""
def threeSpaces : String := "   "
def exName : String := "Glob of Ectoplasm"
def exIcon : String := "icon-url"

def exItemC1 : Item :=
  { id := 1, name := exName, buy_threshold := 100, sell_threshold := 50,
    lowest_seen := LOWEST_SENTINEL, last_buy_price := 0,
    last_sell_price := 0, icon_url := exIcon }

def exListingBoth : Listing :=
  { buy := { unit_price := 150, quantity := 5 },
    sell := { unit_price := 40, quantity := 7 } }

def exListingNone : Listing :=
  { buy := { unit_price := 90, quantity := 5 },
    sell := { unit_price := 60, quantity := 7 } }

/-! ## Helper lemmas -/

theorem format_eq_spec_render (v : Nat) : format_price v = spec_render v := by
  unfold format_price spec_render pad2 spec_pad2
  have h : v % 10000 / 100 = v / 100 % 100 := by
    have h2 : (10000 : Nat) = 100 * 100 := by norm_num
    rw [h2, Nat.mod_mul_right_div_self]
  rw [h]

theorem stripChars_of_all_space {cs : List Char}
    (h : ∀ c ∈ cs, isSpaceChar c = true) : stripChars cs = [] := by
  unfold stripChars
  rw [List.dropWhile_eq_nil_iff.mpr h]
  simp

/-! ### Pattern lemmas: the matcher agrees with the structure of
`(\d+g)?(\d+s)?(\d+c)?` -/

theorem nilPattern : ∀ units : List (Char × Nat), unitsPattern units [] := by
  intro units
  induction units with
  | nil => rfl
  | cons um units ih =>
    obtain ⟨u, m⟩ := um
    exact Or.inl ih

theorem takeWhile_digits_append (ds : List Char) (u : Char) (r : List Char)
    (hds : ∀ c ∈ ds, c.isDigit = true) (hu : u.isDigit = false) :
    (ds ++ u :: r).takeWhile Char.isDigit = ds ∧
    (ds ++ u :: r).dropWhile Char.isDigit = u :: r := by
  induction ds with
  | nil =>
    constructor
    · rw [List.nil_append, List.takeWhile_cons, hu]
      rfl
    · rw [List.nil_append, List.dropWhile_cons, hu]
      rfl
  | cons d ds ih =>
    have hd : d.isDigit = true := hds d (by simp)
    obtain ⟨h1, h2⟩ := ih (fun c hc => hds c (by simp [hc]))
    constructor
    · rw [List.cons_append, List.takeWhile_cons, hd]
      simp only [if_true, h1]
    · rw [List.cons_append, List.dropWhile_cons, hd]
      simp only [if_true, h2]

theorem not_pattern_of_all_digits :
    ∀ (units : List (Char × Nat)) (cs : List Char),
      (∀ p ∈ units, (p.1).isDigit = false) → cs ≠ [] →
      (∀ c ∈ cs, c.isDigit = true) → ¬ unitsPattern units cs := by
  intro units
  induction units with
  | nil => intro cs _ hne _ h; exact hne h
  | cons um units ih =>
    obtain ⟨u, m⟩ := um
    intro cs hnd hne hdig h
    cases h with
    | inl h =>
      exact ih cs (fun p hp => hnd p (List.mem_cons_of_mem _ hp)) hne hdig h
    | inr h =>
      obtain ⟨ds, rest, hds_ne, hds_dig, heq, hrest⟩ := h
      have humem : u ∈ cs := by
        rw [heq]
        exact List.mem_append_right _ (List.mem_cons_self _ _)
      have hu_dig : u.isDigit = true := hdig u humem
      have hu_not : u.isDigit = false := hnd (u, m) (List.mem_cons_self _ _)
      rw [hu_not] at hu_dig
      exact Bool.false_ne_true hu_dig

theorem not_pattern_of_head_not_digit :
    ∀ (units : List (Char × Nat)) (c : Char) (cs : List Char),
      c.isDigit = false → ¬ unitsPattern units (c :: cs) := by
  intro units
  induction units with
  | nil => intro c cs _ h; cases h
  | cons um units ih =>
    obtain ⟨u, m⟩ := um
    intro c cs hc h
    cases h with
    | inl h => exact ih c cs hc h
    | inr h =>
      obtain ⟨ds, rest, hds_ne, hds_dig, heq, hrest⟩ := h
      match ds, hds_ne with
      | d :: ds', _ =>
        rw [List.cons_append] at heq
        injection heq with h1 h2
        have hd : d.isDigit = true := hds_dig d (List.mem_cons_self _ _)
        rw [← h1, hc] at hd
        exact Bool.false_ne_true hd

theorem pattern_chars :
    ∀ (units : List (Char × Nat)) (cs : List Char),
      unitsPattern units cs →
      ∀ ch ∈ cs, ch.isDigit = true ∨ ch ∈ units.map Prod.fst := by
  intro units
  induction units with
  | nil =>
    intro cs h ch hch
    rw [h] at hch
    cases hch
  | cons um units ih =>
    obtain ⟨u, m⟩ := um
    intro cs h ch hch
    cases h with
    | inl h =>
      rcases ih cs h ch hch with hd | hm
      · exact Or.inl hd
      · exact Or.inr (by rw [List.map_cons]; exact List.mem_cons_of_mem _ hm)
    | inr h =>
      obtain ⟨ds, rest, hds_ne, hds_dig, heq, hrest⟩ := h
      rw [heq] at hch
      rcases List.mem_append.mp hch with h1 | h2
      · exact Or.inl (hds_dig ch h1)
      · rcases List.mem_cons.mp h2 with h3 | h4
        · exact Or.inr (by rw [h3, List.map_cons]; exact List.mem_cons_self _ _)
        · rcases ih rest hrest ch h4 with hd | hm
          · exact Or.inl hd
          · exact Or.inr (by rw [List.map_cons]; exact List.mem_cons_of_mem _ hm)

/-- The matcher accepts exactly the texts with the ordered
optional-group structure of the pattern. -/
theorem matchUnits_iff (units : List (Char × Nat)) :
    ∀ cs : List Char,
      (∀ p ∈ units, (p.1).isDigit = false) →
      (units.map Prod.fst).Nodup →
      ((matchUnits units cs).isSome = true ↔ unitsPattern units cs) := by
  induction units with
  | nil =>
    intro cs hnd hdup
    cases cs with
    | nil => simp [matchUnits, unitsPattern]
    | cons c cs' => simp [matchUnits, unitsPattern]
  | cons um units ih =>
    obtain ⟨u, m⟩ := um
    intro cs hnd hdup
    have hnd' : ∀ p ∈ units, (p.1).isDigit = false :=
      fun p hp => hnd p (List.mem_cons_of_mem _ hp)
    have hu_not : u.isDigit = false := hnd (u, m) (List.mem_cons_self _ _)
    rw [List.map_cons, List.nodup_cons] at hdup
    cases cs with
    | nil =>
      exact iff_of_true (by simp [matchUnits]) (nilPattern _)
    | cons c cs' =>
      cases hdd : (c :: cs').dropWhile Char.isDigit with
      | nil =>
        have hall : ∀ x ∈ c :: cs', x.isDigit = true :=
          List.dropWhile_eq_nil_iff.mp hdd
        have hmu : matchUnits ((u, m) :: units) (c :: cs') = none := by
          simp only [matchUnits, hdd]
        rw [hmu]
        simp only [Option.isSome_none, Bool.false_eq_true, false_iff]
        exact not_pattern_of_all_digits _ _ hnd (by simp) hall
      | cons w rest =>
        by_cases hds : (c :: cs').takeWhile Char.isDigit = []
        · have hc : c.isDigit = false := by
            by_contra hcd
            rw [List.takeWhile_cons, eq_true_of_ne_false hcd] at hds
            simp at hds
          have hmu : matchUnits ((u, m) :: units) (c :: cs') = none := by
            simp only [matchUnits, hdd, hds, if_true]
          rw [hmu]
          simp only [Option.isSome_none, Bool.false_eq_true, false_iff]
          exact not_pattern_of_head_not_digit _ _ _ hc
        · have hsplit : (c :: cs').takeWhile Char.isDigit ++ w :: rest =
              c :: cs' := by
            rw [← hdd]
            exact List.takeWhile_append_dropWhile _ _
          have hdig : ∀ x ∈ (c :: cs').takeWhile Char.isDigit,
              x.isDigit = true := fun x hx => List.mem_takeWhile_imp hx
          by_cases hw : w = u
          · have hmu : matchUnits ((u, m) :: units) (c :: cs') =
                (matchUnits units rest).map
                  (fun v => digitsVal ((c :: cs').takeWhile Char.isDigit) * m
                    + v) := by
              simp only [matchUnits, hdd, hds, hw, if_false, if_true, ite_false,
                ite_true]
            rw [hmu, Option.isSome_map', ih rest hnd' hdup.2]
            constructor
            · intro hp
              have heqq : c :: cs' =
                  (c :: cs').takeWhile Char.isDigit ++ u :: rest := by
                conv_lhs => rw [← hsplit]
                rw [hw]
              exact Or.inr ⟨(c :: cs').takeWhile Char.isDigit, rest, hds,
                hdig, heqq, hp⟩
            · intro hp
              cases hp with
              | inl hp' =>
                exfalso
                have hu_mem : u ∈ c :: cs' := by
                  rw [← hsplit, hw]
                  exact List.mem_append_right _ (List.mem_cons_self _ _)
                rcases pattern_chars units _ hp' u hu_mem with hd | hm
                · rw [hu_not] at hd
                  exact Bool.false_ne_true hd
                · exact hdup.1 hm
              | inr hp' =>
                obtain ⟨ds', rest', hne', hdig', heq', hrest'⟩ := hp'
                have hTD := takeWhile_digits_append ds' u rest' hdig' hu_not
                rw [heq', hTD.2] at hdd
                injection hdd with h1 h2
                rw [← h2]
                exact hrest'
          · have hmu : matchUnits ((u, m) :: units) (c :: cs') =
                matchUnits units (c :: cs') := by
              simp only [matchUnits, hdd, hds, hw, if_false, ite_false]
            rw [hmu, ih _ hnd' hdup.2]
            constructor
            · exact Or.inl
            · intro hp
              cases hp with
              | inl hp' => exact hp'
              | inr hp' =>
                exfalso
                obtain ⟨ds', rest', hne', hdig', heq', hrest'⟩ := hp'
                have hTD := takeWhile_digits_append ds' u rest' hdig' hu_not
                rw [heq', hTD.2] at hdd
                injection hdd with h1 h2
                exact hw h1.symm

/-! ## Claims -/

/-- C1: Threshold evaluation.  For every tracked item and fetched
listing, a SELL-opportunity event (source trigger "buy") carrying the
best buy price CB and the buy-side quantity is emitted iff
CB > buy_threshold strictly, and a BUY-opportunity event (source
trigger "sell") carrying the best sell price CS and the sell-side
quantity is emitted iff CS < sell_threshold strictly; both can fire in
the same cycle.  With thresholds 100/50, listing buy 150 / sell 40
yields both events and listing buy 90 / sell 60 yields none. -/
theorem threshold_evaluation_correct :
    (∀ (props : Item) (listing : Listing),
      ((∃ a ∈ itemAlerts props listing, a.trigger = buyTrigger) ↔
        props.buy_threshold < listing.buy.unit_price) ∧
      (∀ a ∈ itemAlerts props listing, a.trigger = buyTrigger →
        a.price = listing.buy.unit_price ∧ a.quantity = listing.buy.quantity) ∧
      ((∃ a ∈ itemAlerts props listing, a.trigger = sellTrigger) ↔
        listing.sell.unit_price < props.sell_threshold) ∧
      (∀ a ∈ itemAlerts props listing, a.trigger = sellTrigger →
        a.price = listing.sell.unit_price ∧ a.quantity = listing.sell.quantity)) ∧
    ((∃ a ∈ itemAlerts exItemC1 exListingBoth,
        a.trigger = buyTrigger ∧ a.price = 150) ∧
     (∃ a ∈ itemAlerts exItemC1 exListingBoth,
        a.trigger = sellTrigger ∧ a.price = 40)) ∧
    itemAlerts exItemC1 exListingNone = [] := by
  refine ⟨fun props listing => ?_, by decide, by decide⟩
  have hne : buyTrigger ≠ sellTrigger := by decide
  by_cases hb : props.buy_threshold < listing.buy.unit_price <;>
    by_cases hs : listing.sell.unit_price < props.sell_threshold <;>
    simp [itemAlerts, hb, hs, hne, Ne.symm hne]

/-- C2: Rate-limit handling.  A 429 response makes the fetch write
`limit_until := now + RATE_LIMIT_RETRY`, a value strictly in the
future, and report the raised RateLimitHitException; a successful fetch
clears `limit_until` to 0; and in the poll loop a raised
RateLimitHitException ends the cycle as rate-limited with the notifier
never invoked, and until the written cutoff passes later cycles enter
the cooldown wait. -/
theorem rate_limit_handling_correct :
    (∀ (st : Store) (now : Nat),
      (@api_fetch Unit (.httpError 429) now st).1.limit_until =
          now + RATE_LIMIT_RETRY ∧
      now < (@api_fetch Unit (.httpError 429) now st).1.limit_until ∧
      (@api_fetch Unit (.httpError 429) now st).2 = .rateLimited) ∧
    (∀ (st : Store) (now : Nat) (d : Unit),
      (@api_fetch Unit (.success d) now st).1.limit_until = 0 ∧
      (@api_fetch Unit (.success d) now st).2 = .ok d) ∧
    (∀ (st : Store) (now : Nat) (hasDiscord : Bool),
      ¬ now < st.limit_until → st.items.isEmpty = false →
      (monitorCycle st now (.httpError 429) hasDiscord).outcome = .rateLimited ∧
      (monitorCycle st now (.httpError 429) hasDiscord).notifierCalled = false ∧
      (monitorCycle st now (.httpError 429) hasDiscord).store.limit_until =
        now + RATE_LIMIT_RETRY ∧
      ∀ (now2 : Nat) (resp2 : ApiResult (Nat → List Order × List Order))
        (hasD2 : Bool), now2 < now + RATE_LIMIT_RETRY →
        (monitorCycle (monitorCycle st now (.httpError 429) hasDiscord).store
          now2 resp2 hasD2).outcome = .cooldownWait) := by
  refine ⟨fun st now => ⟨rfl, ?_, rfl⟩, fun st now d => ⟨rfl, rfl⟩,
    fun st now hasDiscord h1 h2 => ?_⟩
  · show now < now + RATE_LIMIT_RETRY
    exact Nat.lt_add_of_pos_right (by decide)
  · have hcycle : monitorCycle st now (.httpError 429) hasDiscord =
        { store := { st with limit_until := now + RATE_LIMIT_RETRY },
          outcome := .rateLimited, notifierCalled := false } := by
      unfold monitorCycle
      rw [if_neg h1]
      simp [h2, api_fetch]
    refine ⟨by rw [hcycle], by rw [hcycle], by rw [hcycle], ?_⟩
    intro now2 resp2 hasD2 hlt
    rw [hcycle]
    unfold monitorCycle
    rw [if_pos hlt]

/-- C3: Price round-trip.  Parsing "1g23s45c" gives 12345, formatting
12345 gives "1g23s45c", and every accepted input formats back to its
normalized rendering (gold unpadded, silver and copper zero-padded to
two digits, 1 gold = 100 silver = 10000 copper). -/
theorem price_round_trip :
    parse_price_input exPriceStr = some 12345 ∧
    format_price 12345 = exPriceOut ∧
    (∀ (x : String) (v : Nat), parse_price_input x = some v →
      normalize_price x = some (format_price v)) := by
  refine ⟨by decide, by decide, fun x v h => ?_⟩
  unfold normalize_price
  rw [h, format_eq_spec_render]
  rfl

/-! ### Store lemmas: the UPDATE / DELETE / rowcount machinery -/

theorem find?_map_pres {f : Item → Item} {p : Item → Bool}
    (hf : ∀ x, p (f x) = p x) :
    ∀ l : List Item, (l.map f).find? p = (l.find? p).map f := by
  intro l
  induction l with
  | nil => rfl
  | cons x xs ih =>
    by_cases hx : p x = true
    · rw [List.map_cons, List.find?_cons_of_pos _ (by rw [hf]; exact hx),
        List.find?_cons_of_pos _ hx, Option.map_some']
    · rw [List.map_cons, List.find?_cons_of_neg _ (by rw [hf]; simpa using hx),
        List.find?_cons_of_neg _ (by simpa using hx), ih]

theorem map_eq_self_of {f : Item → Item} :
    ∀ l : List Item, (∀ x ∈ l, f x = x) → l.map f = l := by
  intro l h
  induction l with
  | nil => rfl
  | cons x xs ih =>
    rw [List.map_cons, h x (by simp), ih (fun y hy => h y (by simp [hy]))]

/-- After UPDATE WHERE id, the lookup of that id sees the changed row. -/
theorem updateWhere_lookup (f : Item → Item) (hid : ∀ x, (f x).id = x.id)
    {l : List Item} {id : Nat} {it : Item}
    (h : l.find? (fun x => x.id == id) = some it) :
    (updateWhere l id f).find? (fun x => x.id == id) = some (f it) := by
  have hp : ∀ x, (((if x.id == id then f x else x).id == id) : Bool) =
      (x.id == id) := by
    intro x
    by_cases hx : (x.id == id) = true
    · simp only [hx, if_true, hid x, hx]
    · simp only [hx, Bool.false_eq_true, if_false]
  unfold updateWhere
  rw [find?_map_pres hp, h, Option.map_some']
  have hit := List.find?_some h
  have hit' : (it.id == id) = true := hit
  rw [if_pos hit']

/-- UPDATE WHERE id leaves every other lookup unchanged. -/
theorem updateWhere_frame (f : Item → Item) (hid : ∀ x, (f x).id = x.id)
    {l : List Item} {id : Nat} {j : Nat} (hne : j ≠ id) :
    (updateWhere l id f).find? (fun x => x.id == j) =
      l.find? (fun x => x.id == j) := by
  have hp : ∀ x, (((if x.id == id then f x else x).id == j) : Bool) =
      (x.id == j) := by
    intro x
    by_cases hx : (x.id == id) = true
    · simp only [hx, if_true, hid x]
    · simp only [hx, Bool.false_eq_true, if_false]
  unfold updateWhere
  rw [find?_map_pres hp]
  cases hfind : l.find? (fun x => x.id == j) with
  | none => rfl
  | some y =>
    have hy := List.find?_some hfind
    have hyj : y.id = j := by simpa using hy
    have hyid : (y.id == id) = false := by
      simp only [beq_eq_false_iff_ne, ne_eq, hyj]
      exact hne
    rw [Option.map_some']
    simp only [hyid, Bool.false_eq_true, if_false]

/-- UPDATE WHERE an absent id changes nothing. -/
theorem updateWhere_absent (f : Item → Item) {l : List Item} {id : Nat}
    (h : l.find? (fun x => x.id == id) = none) :
    updateWhere l id f = l := by
  apply map_eq_self_of
  intro x hx
  have hne : (x.id == id) = false := by
    simpa using List.find?_eq_none.mp h x hx
  simp only [hne, Bool.false_eq_true, if_false]

/-- With distinct ids, a present id matches exactly one row. -/
theorem rowcount_one {l : List Item} {id : Nat} {it : Item}
    (hnd : (l.map Item.id).Nodup)
    (h : l.find? (fun x => x.id == id) = some it) :
    rowcount l id = 1 := by
  unfold rowcount
  induction l with
  | nil => simp at h
  | cons x xs ih =>
    rw [List.map_cons, List.nodup_cons] at hnd
    by_cases hx : (x.id == id) = true
    · rw [List.filter_cons, if_pos hx]
      have hxs : xs.filter (fun y => y.id == id) = [] := by
        rw [List.filter_eq_nil_iff]
        intro y hy hyid
        apply hnd.1
        have h1 : y.id = id := by simpa using hyid
        have h2 : x.id = id := by simpa using hx
        rw [h2, ← h1]
        exact List.mem_map_of_mem Item.id hy
      rw [hxs]
      rfl
    · rw [List.filter_cons, if_neg (by simp [hx])]
      rw [List.find?_cons_of_neg _ (by simpa using hx)] at h
      exact ih hnd.2 h

/-- An absent id matches no row. -/
theorem rowcount_zero {l : List Item} {id : Nat}
    (h : l.find? (fun x => x.id == id) = none) :
    rowcount l id = 0 := by
  unfold rowcount
  rw [List.filter_eq_nil_iff.mpr (fun y hy => by
    simpa using List.find?_eq_none.mp h y hy)]
  rfl

/-- C5: set_thresholds frame and postcondition.  For a stored item,
each provided threshold is updated and `lowest_seen` resets to the
sentinel while every other field of the row is unchanged (the buy-only
update keeps `sell_threshold`), other rows are untouched, and the call
reports true; on an absent id every variant returns false and leaves
the store as it was. -/
theorem set_thresholds_frame :
    ∀ (st : Store) (id b s j : Nat) (it : Item) (bo so : Option Nat),
      (wfStore st → db_items st id = some it →
        ((db_itemThreshold st id (some b) none).2 = true ∧
         db_items (db_itemThreshold st id (some b) none).1 id =
           some { it with buy_threshold := b, lowest_seen := LOWEST_SENTINEL } ∧
         (j ≠ id →
           db_items (db_itemThreshold st id (some b) none).1 j =
             db_items st j) ∧
         (db_itemThreshold st id none (some s)).2 = true ∧
         db_items (db_itemThreshold st id none (some s)).1 id =
           some { it with sell_threshold := s,
                          lowest_seen := LOWEST_SENTINEL } ∧
         (db_itemThreshold st id (some b) (some s)).2 = true ∧
         db_items (db_itemThreshold st id (some b) (some s)).1 id =
           some { it with buy_threshold := b, sell_threshold := s,
                          lowest_seen := LOWEST_SENTINEL })) ∧
      (db_items st id = none → db_itemThreshold st id bo so = (st, false)) := by
  intro st id b s j it bo so
  constructor
  · intro hwf hfind
    have hfind' : st.items.find? (fun x => x.id == id) = some it := hfind
    have hcnt : rowcount st.items id = 1 := rowcount_one hwf hfind'
    have hflag : (rowcount st.items id == 1) = true := by simp [hcnt]
    refine ⟨hflag, ?_, ?_, hflag, ?_, hflag, ?_⟩
    · exact updateWhere_lookup
        (fun x => { x with buy_threshold := b, lowest_seen := LOWEST_SENTINEL })
        (fun x => rfl) hfind'
    · intro hj
      exact updateWhere_frame
        (fun x => { x with buy_threshold := b, lowest_seen := LOWEST_SENTINEL })
        (fun x => rfl) hj
    · exact updateWhere_lookup
        (fun x => { x with sell_threshold := s, lowest_seen := LOWEST_SENTINEL })
        (fun x => rfl) hfind'
    · exact updateWhere_lookup
        (fun x => { x with buy_threshold := b, sell_threshold := s,
                           lowest_seen := LOWEST_SENTINEL })
        (fun x => rfl) hfind'
  · intro hnone
    have hnone' : st.items.find? (fun x => x.id == id) = none := hnone
    have hcnt : (rowcount st.items id == 1) = false := by
      simp [rowcount_zero hnone']
    match bo, so with
    | some b0, some s0 =>
      show ({ st with items := updateWhere st.items id _ },
        (rowcount st.items id == 1)) = (st, false)
      rw [updateWhere_absent _ hnone', hcnt]
    | some b0, none =>
      show ({ st with items := updateWhere st.items id _ },
        (rowcount st.items id == 1)) = (st, false)
      rw [updateWhere_absent _ hnone', hcnt]
    | none, some s0 =>
      show ({ st with items := updateWhere st.items id _ },
        (rowcount st.items id == 1)) = (st, false)
      rw [updateWhere_absent _ hnone', hcnt]
    | none, none => rfl

/-- C6: add_item uniqueness and atomicity.  Adding an item whose id or
name is already present fails with DuplicateItem and leaves the store
exactly as it was; adding a fresh id and name appends the new row,
whose `last_buy_price` and `last_sell_price` start at 0. -/
theorem add_item_unique_atomic :
    ∀ (st : Store) (id : Nat) (nm icon : String) (bT sT : Nat),
      ((∃ it ∈ st.items, it.id = id ∨ it.name = nm) →
        db_itemAdd st id nm icon bT sT = (st, some dupItemErr)) ∧
      ((¬ ∃ it ∈ st.items, it.id = id ∨ it.name = nm) →
        (db_itemAdd st id nm icon bT sT).2 = none ∧
        (db_itemAdd st id nm icon bT sT).1.items =
          st.items ++ [newItemRow id nm icon bT sT] ∧
        db_items (db_itemAdd st id nm icon bT sT).1 id =
          some (newItemRow id nm icon bT sT) ∧
        (newItemRow id nm icon bT sT).last_buy_price = 0 ∧
        (newItemRow id nm icon bT sT).last_sell_price = 0) := by
  intro st id nm icon bT sT
  constructor
  · intro h
    have hany : st.items.any (fun it => it.id == id || it.name == nm) = true := by
      rw [List.any_eq_true]
      obtain ⟨x, hx, hor⟩ := h
      refine ⟨x, hx, ?_⟩
      cases hor with
      | inl h1 => simp [h1]
      | inr h2 => simp [h2]
    simp [db_itemAdd, hany]
  · intro h
    have hany : st.items.any (fun it => it.id == id || it.name == nm) = false := by
      rw [Bool.eq_false_iff]
      intro hc
      obtain ⟨x, hx, hp⟩ := List.any_eq_true.mp hc
      rcases Bool.or_eq_true_iff.mp hp with h1 | h2
      · exact h ⟨x, hx, Or.inl (by simpa using h1)⟩
      · exact h ⟨x, hx, Or.inr (by simpa using h2)⟩
    have hfl : st.items.find? (fun x => x.id == id) = none := by
      rw [List.find?_eq_none]
      intro x hx
      simp only [beq_iff_eq]
      intro hxid
      exact h ⟨x, hx, Or.inl hxid⟩
    refine ⟨by simp [db_itemAdd, hany], by simp [db_itemAdd, hany], ?_, rfl, rfl⟩
    simp only [db_itemAdd, db_items, hany, Bool.false_eq_true, if_false]
    rw [List.find?_append, hfl, Option.none_or]
    rw [List.find?_cons_of_pos _ (by simp [newItemRow])]

/-- C7: record_prices postcondition.  For a stored item, after
`record_prices(id, b, s)` the snapshot maps the id to the row with
`last_buy_price = b` and `last_sell_price = s`, with `lowest_seen`
changed exactly when the optional argument is supplied; on an absent id
the call returns false and the store is unchanged. -/
theorem record_prices_post :
    ∀ (st : Store) (id b s lo : Nat) (loOpt : Option Nat) (it : Item),
      (wfStore st → db_items st id = some it →
        ((db_update_prices st id b s none).2 = true ∧
         db_items (db_update_prices st id b s none).1 id =
           some { it with last_buy_price := b, last_sell_price := s } ∧
         (db_update_prices st id b s (some lo)).2 = true ∧
         db_items (db_update_prices st id b s (some lo)).1 id =
           some { it with last_buy_price := b, last_sell_price := s,
                          lowest_seen := lo })) ∧
      (db_items st id = none →
        db_update_prices st id b s loOpt = (st, false)) := by
  intro st id b s lo loOpt it
  constructor
  · intro hwf hfind
    have hfind' : st.items.find? (fun x => x.id == id) = some it := hfind
    have hflag : (rowcount st.items id == 1) = true := by
      simp [rowcount_one hwf hfind']
    refine ⟨hflag, ?_, hflag, ?_⟩
    · exact updateWhere_lookup
        (fun x => { x with last_buy_price := b, last_sell_price := s })
        (fun x => rfl) hfind'
    · exact updateWhere_lookup
        (fun x => { x with last_buy_price := b, last_sell_price := s,
                           lowest_seen := lo })
        (fun x => rfl) hfind'
  · intro hnone
    have hnone' : st.items.find? (fun x => x.id == id) = none := hnone
    have hcnt : (rowcount st.items id == 1) = false := by
      simp [rowcount_zero hnone']
    match loOpt with
    | some l0 =>
      show ({ st with items := updateWhere st.items id _ },
        (rowcount st.items id == 1)) = (st, false)
      rw [updateWhere_absent _ hnone', hcnt]
    | none =>
      show ({ st with items := updateWhere st.items id _ },
        (rowcount st.items id == 1)) = (st, false)
      rw [updateWhere_absent _ hnone', hcnt]

/-- C8: delete_item idempotence.  Deleting a stored id returns true and
removes the row; an immediately repeated delete returns false and
changes nothing; deleting an absent id returns false and changes
nothing. -/
theorem delete_item_idempotent :
    ∀ (st : Store) (id : Nat),
      (wfStore st → (db_items st id).isSome = true →
        ((db_itemDel st id).2 = true ∧
         db_items (db_itemDel st id).1 id = none ∧
         db_itemDel (db_itemDel st id).1 id = ((db_itemDel st id).1, false))) ∧
      (db_items st id = none → db_itemDel st id = (st, false)) := by
  intro st id
  constructor
  · intro hwf hsome
    obtain ⟨it, hit⟩ := Option.isSome_iff_exists.mp hsome
    have hfind' : st.items.find? (fun x => x.id == id) = some it := hit
    have hflag : (rowcount st.items id == 1) = true := by
      simp [rowcount_one hwf hfind']
    have hgone : (st.items.filter (fun x => !(x.id == id))).find?
        (fun x => x.id == id) = none := by
      rw [List.find?_eq_none]
      intro x hx
      have hx2 := (List.mem_filter.mp hx).2
      simp at hx2 ⊢
      exact hx2
    refine ⟨hflag, hgone, ?_⟩
    have hflag2 : (rowcount (st.items.filter (fun x => !(x.id == id))) id == 1)
        = false := by
      simp [rowcount_zero hgone]
    have hself : (st.items.filter (fun x => !(x.id == id))).filter
        (fun x => !(x.id == id)) = st.items.filter (fun x => !(x.id == id)) :=
      List.filter_eq_self.mpr (fun a ha => (List.mem_filter.mp ha).2)
    show
      ({ st with
          items :=
            List.filter (fun x => !(x.id == id))
              (List.filter (fun x => !(x.id == id)) st.items) },
        (rowcount (List.filter (fun x => !(x.id == id)) st.items) id == 1)) =
      ({ st with items := List.filter (fun x => !(x.id == id)) st.items },
        false)
    rw [hself, hflag2]
  · intro hnone
    have hnone' : st.items.find? (fun x => x.id == id) = none := hnone
    have hcnt : (rowcount st.items id == 1) = false := by
      simp [rowcount_zero hnone']
    have hall : st.items.filter (fun x => !(x.id == id)) = st.items :=
      List.filter_eq_self.mpr (fun a ha => by
        simpa using List.find?_eq_none.mp hnone' a ha)
    show ({ st with items := st.items.filter (fun x => !(x.id == id)) },
      (rowcount st.items id == 1)) = (st, false)
    rw [hall, hcnt]

/-- C9: Empty-string price input.  The parser accepts the empty string
and any all-whitespace input (stripped before matching) and returns 0
instead of raising InvalidPriceFormat, because all three groups of the
pattern are optional. -/
theorem empty_price_input_accepted :
    parse_price_input emptyStr = some 0 ∧
    (∀ s : String, (∀ c ∈ s.data, isSpaceChar c = true) →
      parse_price_input s = some 0) ∧
    parse_price_input threeSpaces = some 0 := by
  refine ⟨by decide, fun s h => ?_, by decide⟩
  unfold parse_price_input
  rw [stripChars_of_all_space h]
  rfl

/-- C4: Price parsing validation.  An input is accepted exactly when,
after trimming and lowercasing, it has the structure
`(\d+g)?(\d+s)?(\d+c)?`; every other input raises InvalidPriceFormat
(a `none` result), and a rejected threshold input leaves the persisted
store untouched in the threshold action. -/
theorem price_parsing_validation :
    (∀ x : String,
      (parse_price_input x).isSome = true ↔
        pricePattern (lowerChars (stripChars x.data))) ∧
    (∀ (st : Store) (id : Nat) (s : String) (other : Option String),
      parse_price_input s = none →
      actionThreshold st id (some s) other = st ∧
      actionThreshold st id other (some s) = st) := by
  constructor
  · intro x
    exact matchUnits_iff PRICE_UNITS (lowerChars (stripChars x.data))
      (by decide) (by decide)
  · intro st id s other h
    have hs : parseThresholdArg (some s) = none := by
      simp only [parseThresholdArg]
      by_cases he : s = ""
      · exfalso
        have h0 : parse_price_input emptyStr = some 0 := by decide
        rw [he] at h
        rw [show emptyStr = "" from rfl] at h0
        rw [h0] at h
        cases h
      · rw [if_neg he, h]
        rfl
    constructor
    · unfold actionThreshold
      rw [hs]
    · unfold actionThreshold
      cases hother : parseThresholdArg other with
      | none => rw [hs]
      | some b => rw [hs]

/-- C10: Empty order-book side.  A listing with no sell orders is read
as sell price 0 and quantity 0, so any item with a positive
sell_threshold gets a spurious BUY-opportunity event carrying price 0
and quantity 0, and a full poll cycle persists `last_sell_price = 0`
for it; symmetrically a listing with no buy orders is read as buy
price 0, which never exceeds a (non-negative) buy_threshold, so no
SELL-opportunity event is emitted. -/
def spuriousAlert (props : Item) : Alert :=
  { name := props.name, price := 0, quantity := 0,
    threshold := props.sell_threshold, icon := props.icon_url,
    trigger := sellTrigger }

theorem empty_sell_side_spurious_alert :
    (∀ (props : Item) (buys : List Order),
      0 < props.sell_threshold →
      ∃ a ∈ itemAlerts props (listingOfRaw buys []),
        a.trigger = sellTrigger ∧ a.price = 0 ∧ a.quantity = 0) ∧
    (∀ (props : Item) (sells : List Order),
      ¬ ∃ a ∈ itemAlerts props (listingOfRaw [] sells),
        a.trigger = buyTrigger) ∧
    (∀ (st : Store) (now : Nat) (raw : Nat → List Order × List Order)
       (hasD : Bool) (it : Item),
      ¬ now < st.limit_until → st.items = [it] → 0 < it.sell_threshold →
      (raw it.id).2 = [] →
      (monitorCycle st now (.success raw) hasD).outcome =
        .completed (itemAlerts it (listingOfRaw (raw it.id).1 [])) ∧
      db_items (monitorCycle st now (.success raw) hasD).store it.id =
        some { it with
          last_buy_price := (listingOfRaw (raw it.id).1 []).buy.unit_price,
          last_sell_price := 0 }) := by
  refine ⟨?_, ?_, ?_⟩
  · intro props buys hpos
    have hsell : (listingOfRaw buys []).sell.unit_price = 0 := rfl
    have hcond : (listingOfRaw buys []).sell.unit_price <
        props.sell_threshold := by
      rw [hsell]
      exact hpos
    refine ⟨spuriousAlert props, ?_, rfl, rfl, rfl⟩
    unfold itemAlerts
    apply List.mem_append_right
    rw [if_pos hcond]
    exact List.mem_singleton.mpr rfl
  · intro props sells
    rintro ⟨a, ha, htrig⟩
    have hbuy : ¬ props.buy_threshold < (listingOfRaw [] sells).buy.unit_price := by
      show ¬ props.buy_threshold < 0
      exact Nat.not_lt_zero _
    unfold itemAlerts at ha
    rw [if_neg hbuy, List.nil_append] at ha
    by_cases hsell : (listingOfRaw [] sells).sell.unit_price <
        props.sell_threshold
    · rw [if_pos hsell] at ha
      have ha' := List.mem_singleton.mp ha
      rw [ha'] at htrig
      have htr : sellTrigger = buyTrigger := htrig
      exact absurd htr (by decide)
    · rw [if_neg hsell] at ha
      cases ha
  · intro st now raw hasD it h1 h2 h3 h4
    have hfind : ((Store.mk [it] st.last_run 0).items).find?
        (fun x => x.id == it.id) = some it :=
      List.find?_cons_of_pos _ (by simp)
    have hsell : (listingOfRaw (raw it.id).1 (raw it.id).2).sell.unit_price
        = 0 := by
      rw [h4]
      rfl
    have hcycle : monitorCycle st now (.success raw) hasD =
        { store := (db_update_prices (Store.mk [it] st.last_run 0) it.id
            (listingOfRaw (raw it.id).1 (raw it.id).2).buy.unit_price
            (listingOfRaw (raw it.id).1 (raw it.id).2).sell.unit_price
            none).1,
          outcome := .completed
            (itemAlerts it (listingOfRaw (raw it.id).1 (raw it.id).2)),
          notifierCalled :=
            !(itemAlerts it (listingOfRaw (raw it.id).1 (raw it.id).2)).isEmpty
              && hasD } := by
      unfold monitorCycle
      rw [if_neg h1]
      simp only [h2, api_fetch, List.isEmpty_cons, Bool.false_eq_true,
        if_false, List.foldl_cons, List.foldl_nil, List.nil_append]
    rw [hcycle, h4]
    refine ⟨rfl, ?_⟩
    exact updateWhere_lookup
      (fun x => { x with
        last_buy_price := (listingOfRaw (raw it.id).1 []).buy.unit_price,
        last_sell_price := 0 })
      (fun x => rfl) hfind

end GW2TP
